import Mathlib

/-!
Shallow embedding of the `zoho-trial` repository's incremental backup
pipeline (`src/incremental_backup.py`) and the Zoho log ingest
(`src/zoholog_to_db.py`), with theorems settling the specification's
claims about watermark handling, remote merge semantics, value
serialization and dedup behaviour.

Python strings are modelled as `List Char` where content is manipulated
character-by-character (strip / endswith / slicing), and as Lean `String`
where the code only builds and compares whole strings.  Timestamps (the
ordering column) are modelled as `Nat`; the database epoch default
`"1970-01-01 00:00:00"` becomes `0`.  Machine-level details (actual MySQL
wire protocol, Google Drive HTTP calls) are modelled as explicit
environment data: the query semantics of
`SELECT * FROM t WHERE timestamp > %s ORDER BY timestamp ASC` is
filter-then-sort over the table contents, and a Drive file store is an
association list from file title to content.
-/

namespace ZohoTrial

/-! ## Value model and `format_value` (incremental_backup.py, lines 46-51)

A fetched cell is `None`, an `int`/`float`, a `bool` (which in Python is
an instance of `int`, hence caught by the numeric branch), or anything
else, which the code renders via `str(...)`; we model the "anything else"
case as a string cell, since rows come out of the MySQL connector as
text/number/NULL values.  Numerics are modelled by `Int` (floating-point
rendering is not modelled). -/

inductive Value where
  | null : Value
  | intV (n : Int) : Value
  | boolV (b : Bool) : Value
  | strV (s : String) : Value
deriving DecidableEq

/-- Python `isinstance(value, (int, float))`; `True`/`False` are instances
of `int`, so booleans satisfy this test. -/
def pyIsNumeric : Value → Bool
  | .intV _ => true
  | .boolV _ => true
  | _ => false

/-- Python `str(value)` on the modelled values. -/
def pyStr : Value → String
  | .null => "None"
  | .intV n => toString n
  | .boolV b => if b then "True" else "False"
  | .strV s => s

/-- The single-quote character (codepoint 39). -/
def squote : Char := Char.ofNat 39

/-- Python `str(value).replace(squote, two squotes)`: each single quote is
doubled, scanning left to right; every other character is kept
unchanged. -/
def escQuote : List Char → List Char
  | [] => []
  | c :: rest => if c = squote then squote :: squote :: escQuote rest else c :: escQuote rest

/-- `format_value` (incremental_backup.py lines 46-51):
`None` renders as `NULL`; `int`/`float` (hence also `bool`) render via
`str`; everything else renders single-quoted with quotes doubled. -/
def format_value (v : Value) : String :=
  if v = .null then "NULL"
  else if pyIsNumeric v then pyStr v
  else "'" ++ String.mk (escQuote (pyStr v).data) ++ "'"

/-! ## Statement serialization (lines 54-59)

Content that is appended to and inspected character-wise is kept as
`List Char`. -/

/-- Python `sep.join(pieces)` on character lists. -/
def joinSep (sep : List Char) : List (List Char) → List Char
  | [] => []
  | [x] => x
  | x :: y :: rest => x ++ sep ++ joinSep sep (y :: rest)

/-- One serialized value tuple:
`f"({', '.join(format_value(v) for v in row)})"` (line 58). -/
def renderRow (row : List Value) : List Char :=
  ['('] ++ joinSep [',', ' '] (row.map (fun v => (format_value v).data)) ++ [')']

/-- The statement header
`f"INSERT INTO \x7btable\x7d ({', '.join(columns)}) VALUES\n"` (line 57,
with the table name backtick-quoted). -/
def insertHeader (table : String) (columns : List String) : List Char :=
  "INSERT INTO `".data ++ table.data ++ "` (".data
    ++ joinSep [',', ' '] (columns.map String.data) ++ ") VALUES\n".data

/-- `generate_insert_components` (lines 54-59): `(None, None)` on an empty
row set, modelled as `none`; otherwise the header and the rendered value
tuples. -/
def generate_insert_components (table : String) (columns : List String)
    (rows : List (List Value)) : Option (List Char × List (List Char)) :=
  if rows = [] then none
  else some (insertHeader table columns, rows.map renderRow)

/-! ## Remote merge writer (`upload_to_gdrive`, lines 132-163)

Python's `str.strip` / `endswith` / slicing are modelled on `List Char`. -/

/-- Python `str.lstrip()`. -/
def stripLeft (l : List Char) : List Char := l.dropWhile Char.isWhitespace

/-- Python `str.rstrip()`. -/
def stripRight (l : List Char) : List Char :=
  (l.reverse.dropWhile Char.isWhitespace).reverse

/-- Python `str.strip()`. -/
def pyStrip (l : List Char) : List Char := stripRight (stripLeft l)

/-- Lines 141-142: `if existing_content.endswith(";"): existing_content =
existing_content[:-1].strip()`. -/
def stripSemi (e : List Char) : List Char :=
  if e.getLast? = some ';' then pyStrip e.dropLast else e

/-- The append branch of `upload_to_gdrive` (lines 138-150): strip the
downloaded content, drop a trailing terminator, defensively add a newline
when the remainder does not end in a closing parenthesis, then append the
comma-separated new tuples and a fresh terminator. -/
def uploadAppend (existing : List Char) (new_rows : List (List Char)) : List Char :=
  let e := stripSemi (pyStrip existing)
  if new_rows = [] then e
  else (if e.getLast? = some ')' then e else e ++ ['\n'])
    ++ [',', '\n'] ++ joinSep [',', '\n'] new_rows ++ [';', '\n']

/-- The create branch (line 154): `header + ",\n".join(new_rows) + ";\n"`. -/
def uploadCreate (header : List Char) (new_rows : List (List Char)) : List Char :=
  header ++ joinSep [',', '\n'] new_rows ++ [';', '\n']

/-- The Drive store: file title to content (`find_drive_file` matches on
exact title). -/
abbrev DriveState := List (String × List Char)

/-- `find_drive_file` (lines 114-117). -/
def dsFind (ds : DriveState) (title : String) : Option (List Char) :=
  match ds with
  | [] => none
  | (t, c) :: rest => if t = title then some c else dsFind rest title

/-- `SetContentString` followed by `Upload`: replace (or create) the
object's content. -/
def dsSet (ds : DriveState) (title : String) (content : List Char) : DriveState :=
  match ds with
  | [] => [(title, content)]
  | (t, c) :: rest =>
      if t = title then (title, content) :: rest else (t, c) :: dsSet rest title content

/-- `upload_to_gdrive` (lines 132-163): append to an existing file of the
same title, otherwise create it from the header. -/
def upload_to_gdrive (ds : DriveState) (filename : String) (header : List Char)
    (new_rows : List (List Char)) : DriveState :=
  match dsFind ds filename with
  | some existing => dsSet ds filename (uploadAppend existing new_rows)
  | none => dsSet ds filename (uploadCreate header new_rows)

/-! ## Row fetcher and `backup_table` (lines 62-83) -/

/-- A fetched row: `ts` is the value of the ordering column `timestamp`
(the cell `row[columns.index("timestamp")]`), `vals` the full value tuple
as fetched. -/
structure FetchedRow where
  ts : Nat
  vals : List Value
deriving DecidableEq

/-- Insert a row into an ascending-by-timestamp list. -/
def insertByTs (r : FetchedRow) : List FetchedRow → List FetchedRow
  | [] => [r]
  | x :: xs => if r.ts ≤ x.ts then r :: x :: xs else x :: insertByTs r xs

/-- Ascending sort by the ordering column. -/
def sortByTs : List FetchedRow → List FetchedRow
  | [] => []
  | x :: xs => insertByTs x (sortByTs xs)

/-- Semantics of the query
`SELECT * FROM t WHERE timestamp > %s ORDER BY timestamp ASC` (line 63)
over the table's contents: rows strictly past the watermark, ascending. -/
def fetchRows (tbl : List FetchedRow) (w : Nat) : List FetchedRow :=
  sortByTs (tbl.filter (fun r => w < r.ts))

/-- `str(rows[-1][columns.index("timestamp")])` (line 81): the ordering
value of the last fetched row, with a fallback for the empty case (never
taken by `backup_table`). -/
def lastTs (rows : List FetchedRow) (default : Nat) : Nat :=
  match rows.getLast? with
  | some r => r.ts
  | none => default

/-- `backup_table` (lines 62-83), with the rows already fetched: on an
empty fetch it reports nothing to export and keeps the old watermark;
otherwise it serializes the rows and proposes the last row's timestamp as
the new watermark.  (The local `backups/` file write on lines 75-79 has no
bearing on any claim and is not modelled.) -/
def backup_table (table : String) (columns : List String)
    (fetched : List FetchedRow) (last_time : Nat) :
    Option (List Char × List (List Char)) × Nat :=
  if fetched = [] then (none, last_time)
  else
    match generate_insert_components table columns (fetched.map (·.vals)) with
    | none => (none, last_time)
    | some comps => (some comps, lastTs fetched last_time)

/-! ## Checkpoint store and the run loop (`main`, lines 166-196) -/

/-- The checkpoint file's JSON object, as an insertion-ordered mapping
from source name to watermark. -/
abbrev TimesMap := List (String × Nat)

/-- Dictionary lookup. -/
def lookupTime (m : TimesMap) (k : String) : Option Nat :=
  match m with
  | [] => none
  | (k', v) :: rest => if k' = k then some v else lookupTime rest k

/-- Python `times.get(table, "1970-01-01 00:00:00")` with the epoch
modelled as `0`. -/
def getTime (m : TimesMap) (k : String) : Nat := (lookupTime m k).getD 0

/-- Python `dict` assignment `m[k] = v`: update in place, or append a new
key. -/
def setTime (m : TimesMap) (k : String) (v : Nat) : TimesMap :=
  match m with
  | [] => [(k, v)]
  | (k', v') :: rest => if k' = k then (k, v) :: rest else (k', v') :: setTime rest k v

/-- The configured source list (line 29). -/
def TABLES : List String := ["attendance_logs", "raw_device_logs", "raw_zoho_logs"]

/-- `load_last_backup_times` (lines 34-38): the file's mapping when the
file exists, otherwise every configured table at the epoch. -/
def loadTimes (file : Option TimesMap) : TimesMap :=
  file.getD (TABLES.map (fun t => (t, 0)))

/-- `f"\x7btable\x7d_incremental_backup.sql"` (line 187). -/
def fileNameOf (t : String) : String := t ++ "_incremental_backup.sql"

/-- Per-source observable outcome of one loop iteration (ghost log used to
state the claims; `main` itself only writes log lines). -/
inductive Outcome where
  | noRows : Outcome
  | uploaded (rows : List FetchedRow) (newTime : Nat) : Outcome
  | fetchFailed : Outcome
  | uploadFailed : Outcome
deriving DecidableEq

/-- External behaviour of one run: whether the database connection opens,
whether Drive authentication yields a client, each table's contents
(`none` models the fetch raising), the column list reported by the cursor,
and whether each source's Drive upload succeeds (`false` models the
remote write raising). -/
structure Env where
  dbConnect : Bool
  gdriveOk : Bool
  tableData : String → Option (List FetchedRow)
  columns : String → List String
  uploadOk : String → Bool

/-- Mutable state threaded through the `for table in TABLES` loop:
`updated_times`, the Drive store, and the ghost outcome log. -/
structure LoopState where
  updated : TimesMap
  drive : DriveState
  log : List (String × Outcome)
deriving DecidableEq

/-- Either the loop ran to completion, or an exception escaped to `main`'s
top-level handler with the side effects performed so far. -/
inductive LoopResult where
  | done (s : LoopState) : LoopResult
  | raised (s : LoopState) : LoopResult
deriving DecidableEq

/-- The state carried by a loop result. -/
def LoopResult.state : LoopResult → LoopState
  | .done s => s
  | .raised s => s

/-- One iteration of the `for table in TABLES` loop of `main`
(lines 184-189): fetch, serialize, upload, and on success record the new
watermark in `updated_times`.  `Except.error` models an exception
escaping the iteration (there is no per-source handler in `main`). -/
def stepSource (env : Env) (lastTimes : TimesMap) (t : String) (s : LoopState) :
    Except LoopState LoopState :=
  match env.tableData t with
  | none => .error { s with log := s.log ++ [(t, .fetchFailed)] }
  | some tbl =>
    let w := getTime lastTimes t
    match backup_table t (env.columns t) (fetchRows tbl w) w with
    | (none, _) => .ok { s with log := s.log ++ [(t, .noRows)] }
    | (some (hdr, vals), newTime) =>
      if env.uploadOk t then
        .ok { updated := setTime s.updated t newTime,
              drive := upload_to_gdrive s.drive (fileNameOf t) hdr vals,
              log := s.log ++ [(t, .uploaded (fetchRows tbl w) newTime)] }
      else .error { s with log := s.log ++ [(t, .uploadFailed)] }

/-- The `for table in TABLES` loop of `main` (lines 183-189): iterations
run in list order; an exception in one iteration propagates out of the
loop. -/
def processLoop (env : Env) (lastTimes : TimesMap) :
    List String → LoopState → LoopResult
  | [], s => .done s
  | t :: rest, s =>
    match stepSource env lastTimes t s with
    | .error s' => .raised s'
    | .ok s' => processLoop env lastTimes rest s'

/-- Observable result of one `main` run: the checkpoint file content after
the run, whether `save_last_backup_times` was called, the Drive store, and
the ghost log. -/
structure RunResult where
  fileAfter : Option TimesMap
  saveCalled : Bool
  drive : DriveState
  log : List (String × Outcome)

/-- `main` (lines 166-196): load the checkpoint file; a connection failure
or a failed Drive authentication ends the run before any source is
processed and without saving; otherwise the loop runs, and only when it
completes without an exception is the checkpoint file rewritten (line 191)
with `updated_times`. -/
def mainRun (env : Env) (drive0 : DriveState) (file0 : Option TimesMap) : RunResult :=
  if env.dbConnect = false then ⟨file0, false, drive0, []⟩
  else if env.gdriveOk = false then ⟨file0, false, drive0, []⟩
  else
    let last := loadTimes file0
    match processLoop env last TABLES ⟨last, drive0, []⟩ with
    | .done s => ⟨some s.updated, true, s.drive, s.log⟩
    | .raised s => ⟨file0, false, s.drive, s.log⟩

/-- The persisted watermark for a source, read off the checkpoint file. -/
def persistedValue (file : Option TimesMap) (t : String) : Option Nat :=
  file.bind (fun m => lookupTime m t)

/-- Sources with a confirmed upload in a run's log. -/
def uploadedKeys (log : List (String × Outcome)) : List String :=
  log.filterMap (fun e => match e.2 with | .uploaded _ _ => some e.1 | _ => none)

/-- Running `main` again on the state a first run left behind. -/
def secondRun (env : Env) (d0 : DriveState) (f0 : Option TimesMap) : RunResult :=
  mainRun env (mainRun env d0 f0).drive (mainRun env d0 f0).fileAfter

/-! Concrete fixtures used by witnesses and the counterexample. -/

/-- A drive state holding one remote object with one rendered tuple. -/
def c2Drive : DriveState :=
  [("f.sql", uploadCreate (insertHeader "t" ["a"]) ([[Value.intV 1]].map renderRow))]

/-- A fully healthy environment: every source holds one row at timestamp
5 and every external call succeeds. -/
def envC1 : Env :=
  { dbConnect := true, gdriveOk := true,
    tableData := fun _ => some [⟨5, [.intV 5]⟩],
    columns := fun _ => ["timestamp"],
    uploadOk := fun _ => true }

/-- An environment in which only the second configured source's remote
write raises. -/
def envC3fail : Env :=
  { dbConnect := true, gdriveOk := true,
    tableData := fun _ => some [⟨1, [.intV 1]⟩],
    columns := fun _ => ["timestamp"],
    uploadOk := fun t => t != "raw_device_logs" }

/-- A healthy environment for the save-policy witness. -/
def envC3good : Env :=
  { dbConnect := true, gdriveOk := true,
    tableData := fun _ => some [⟨2, [.intV 2]⟩],
    columns := fun _ => ["timestamp"],
    uploadOk := fun _ => true }

/-- An environment in which the first configured source's remote write
raises. -/
def envC4 : Env :=
  { dbConnect := true, gdriveOk := true,
    tableData := fun _ => some [⟨7, [.intV 7]⟩],
    columns := fun _ => ["timestamp"],
    uploadOk := fun t => t != "attendance_logs" }

/-- A healthy environment for the idempotence witness. -/
def envC6 : Env :=
  { dbConnect := true, gdriveOk := true,
    tableData := fun _ => some [⟨3, [.intV 3]⟩],
    columns := fun _ => ["timestamp"],
    uploadOk := fun _ => true }

/-- A healthy environment in which only the first configured source has
new rows. -/
def envC10 : Env :=
  { dbConnect := true, gdriveOk := true,
    tableData := fun t => if t = "attendance_logs" then some [⟨5, [.intV 5]⟩] else some [],
    columns := fun _ => ["timestamp"],
    uploadOk := fun _ => true }

/-! ## Dedup ingest (`zoholog_to_db.py`, lines 71-135) -/

/-- A row of `attendance_logs` as inserted by the ingest (line 116-119). -/
structure AttRow where
  user_id : String
  name : String
  timestamp : Nat
  punch_type : Nat
  synced : Nat
  source : String
deriving DecidableEq

/-- A row of `raw_zoho_logs` as inserted by the ingest (lines 121-124). -/
structure ZohoRow where
  user_id : String
  name : String
  timestamp : Nat
  punch_type : Nat
  source : String
deriving DecidableEq

/-- The two target tables. -/
structure LogDB where
  att : List AttRow
  zoho : List ZohoRow
deriving DecidableEq

/-- `log_exists_in_attendance` (lines 71-85): `COUNT(*) > 0` over the
dedup key ⟨user_id, timestamp, punch_type⟩. -/
def log_exists_in_attendance (db : LogDB) (u : String) (ts p : Nat) : Bool :=
  db.att.any (fun r => r.user_id = u ∧ r.timestamp = ts ∧ r.punch_type = p)

/-- `log_exists_in_raw_zoho` (lines 88-102). -/
def log_exists_in_raw_zoho (db : LogDB) (u : String) (ts p : Nat) : Bool :=
  db.zoho.any (fun r => r.user_id = u ∧ r.timestamp = ts ∧ r.punch_type = p)

/-- `insert_log_to_db` (lines 105-135): compute the punch type from the
status, skip when the dedup key is already in either table, otherwise
insert one row into each table in a single transaction. -/
def insert_log_to_db (db : LogDB) (user_id name : String) (timestamp : Nat)
    (status : String) : LogDB × Bool :=
  let punch_type : Nat := if status = "Check-In" then 0 else 1
  if log_exists_in_attendance db user_id timestamp punch_type
      || log_exists_in_raw_zoho db user_id timestamp punch_type then
    (db, false)
  else
    ({ att := db.att ++ [⟨user_id, name, timestamp, punch_type, 1, "zoho"⟩],
       zoho := db.zoho ++ [⟨user_id, name, timestamp, punch_type, "zoho"⟩] }, true)

/-! ## Serializer claims -/

/-- `escQuote` doubles exactly the single quotes and keeps every other
character unchanged. -/
theorem escQuote_eq_flatMap (l : List Char) :
    escQuote l = l.flatMap (fun c => if c = squote then [squote, squote] else [c]) := by
  induction l with
  | nil => rfl
  | cons c rest ih =>
    by_cases hc : c = squote <;> simp [escQuote, hc, ih]

/-- C7: `format_value` renders null as the literal `NULL` marker, an
integer numeric as its unquoted decimal text, and any other (string)
value as single-quoted text in which each embedded single quote is
doubled and every other character is kept unchanged — no other escaping
is applied. -/
theorem format_value_spec :
    format_value .null = "NULL"
    ∧ (∀ n : Int, format_value (.intV n) = toString n)
    ∧ (∀ s : String, format_value (.strV s)
        = "'" ++ String.mk (s.data.flatMap
            (fun c => if c = squote then [squote, squote] else [c])) ++ "'") := by
  refine ⟨rfl, fun n => rfl, fun s => ?_⟩
  simp [format_value, pyIsNumeric, pyStr, escQuote_eq_flatMap]

/-- C9: a boolean input is caught by the numeric branch (Python booleans
are instances of `int`) and rendered unquoted as the text `True` or
`False`: the rendering is not single-quoted and contains no decimal
digit. -/
theorem format_value_bool_spec :
    (∀ b : Bool, format_value (.boolV b) = (if b then "True" else "False"))
    ∧ (∀ b : Bool, (format_value (.boolV b)).data.head? ≠ some squote)
    ∧ (∀ b : Bool, ∀ c ∈ (format_value (.boolV b)).data, ¬ c.isDigit) := by
  refine ⟨?_, ?_, ?_⟩ <;> decide

/-! ## Remote merge writer lemmas -/

/-- `dropWhile` is the identity when the head does not satisfy the
predicate. -/
theorem dropWhile_eq_self_of_head (p : Char → Bool) (l : List Char) (c : Char)
    (hh : l.head? = some c) (hc : p c = false) : l.dropWhile p = l := by
  cases l with
  | nil => rfl
  | cons a rest =>
    simp only [List.head?_cons, Option.some.injEq] at hh
    subst hh
    simp [List.dropWhile_cons, hc]

theorem stripLeft_eq_self (l : List Char) (c : Char)
    (hh : l.head? = some c) (hc : c.isWhitespace = false) : stripLeft l = l :=
  dropWhile_eq_self_of_head _ l c hh hc

theorem stripRight_eq_self (l : List Char) (c : Char)
    (hl : l.getLast? = some c) (hc : c.isWhitespace = false) : stripRight l = l := by
  unfold stripRight
  rw [dropWhile_eq_self_of_head _ _ c (by rw [List.head?_reverse]; exact hl) hc,
    List.reverse_reverse]

/-- A string whose first and last characters are not whitespace is
unchanged by `strip`. -/
theorem pyStrip_eq_self (l : List Char) (c0 cl : Char)
    (hh : l.head? = some c0) (h0 : c0.isWhitespace = false)
    (hl : l.getLast? = some cl) (hcl : cl.isWhitespace = false) : pyStrip l = l := by
  unfold pyStrip
  rw [stripLeft_eq_self l c0 hh h0, stripRight_eq_self l cl hl hcl]

/-- `rstrip` on content ending in the terminator `";\n"` drops exactly the
newline. -/
theorem stripRight_semi (l : List Char) : stripRight (l ++ [';', '\n']) = l ++ [';'] := by
  unfold stripRight
  have h1 : (l ++ [';', '\n']).reverse = '\n' :: ';' :: l.reverse := by simp
  rw [h1, List.dropWhile_cons, List.dropWhile_cons]
  simp [show ('\n').isWhitespace = true from rfl, show (';').isWhitespace = false from rfl]

/-- `",\n".join` distributes over list append. -/
theorem joinSep_append (sep : List Char) :
    ∀ (a b : List (List Char)), a ≠ [] → b ≠ [] →
      joinSep sep (a ++ b) = joinSep sep a ++ sep ++ joinSep sep b
  | [], _, ha, _ => absurd rfl ha
  | [x], b, _, hb => by
    cases b with
    | nil => exact absurd rfl hb
    | cons y rest => simp [joinSep]
  | x :: x' :: a', b, _, hb => by
    have ih := joinSep_append sep (x' :: a') b (by simp) hb
    have step1 : joinSep sep ((x :: x' :: a') ++ b)
        = x ++ sep ++ joinSep sep ((x' :: a') ++ b) := rfl
    have step2 : joinSep sep (x :: x' :: a') = x ++ sep ++ joinSep sep (x' :: a') := rfl
    rw [step1, ih, step2]
    simp [List.append_assoc]

/-- The last character of a join is the last character of the last
piece. -/
theorem joinSep_getLast (sep : List Char) :
    ∀ (rows : List (List Char)) (r : List Char) (c : Char),
      rows.getLast? = some r → r.getLast? = some c →
      (joinSep sep rows).getLast? = some c
  | [], _, _, hr, _ => by simp at hr
  | [x], r, c, hr, hc => by
    simp only [List.getLast?_singleton, Option.some.injEq] at hr
    subst hr
    simpa [joinSep] using hc
  | x :: x' :: a', r, c, hr, hc => by
    have hne : (x' :: a' : List (List Char)) ≠ [] := by simp
    have hr' : (x' :: a').getLast? = some r := by
      rw [← hr]
      exact (List.getLast?_cons_cons ..).symm ▸ rfl
    have ih := joinSep_getLast sep (x' :: a') r c hr' hc
    have hJne : joinSep sep (x' :: a') ≠ [] := by
      intro hnil
      rw [hnil] at ih
      simp at ih
    show (x ++ sep ++ joinSep sep (x' :: a')).getLast? = some c
    rw [List.append_assoc, List.getLast?_append_of_ne_nil _ (by simp [hJne]),
      List.getLast?_append_of_ne_nil _ hJne, ih]

/-- Every rendered value tuple ends with a closing parenthesis. -/
theorem renderRow_getLast (row : List Value) : (renderRow row).getLast? = some ')' := by
  unfold renderRow
  rw [List.append_assoc, List.getLast?_append_of_ne_nil _ (by simp),
    List.getLast?_append_of_ne_nil _ (by simp)]
  rfl

/-- The header built by `generate_insert_components` starts with the
non-whitespace character `I`. -/
theorem insertHeader_head (table : String) (columns : List String) :
    (insertHeader table columns).head? = some 'I' := by
  have h : "INSERT INTO `".data = 'I' :: "NSERT INTO `".data := rfl
  rw [insertHeader, h]
  rfl

/-- Core append correctness: appending new tuples to canonically rendered
content whose join of old tuples ends in a closing parenthesis yields the
canonical rendering of all tuples. -/
theorem uploadAppend_uploadCreate (header : List Char) (c0 : Char)
    (hh : header.head? = some c0) (h0 : c0.isWhitespace = false)
    (old new : List (List Char)) (hold : old ≠ []) (hnew : new ≠ [])
    (hJ : (joinSep [',', '\n'] old).getLast? = some ')') :
    uploadAppend (uploadCreate header old) new = uploadCreate header (old ++ new) := by
  have hJne : joinSep [',', '\n'] old ≠ [] := by
    intro hnil
    rw [hnil] at hJ
    simp at hJ
  have hhead : (header ++ joinSep [',', '\n'] old).head? = some c0 := by
    cases header with
    | nil => simp at hh
    | cons a rest => simpa using hh
  have hlastA : (header ++ joinSep [',', '\n'] old).getLast? = some ')' := by
    rw [List.getLast?_append_of_ne_nil _ hJne, hJ]
  -- strip of the created content removes exactly the trailing newline
  have e0 : pyStrip (uploadCreate header old)
      = (header ++ joinSep [',', '\n'] old) ++ [';'] := by
    unfold uploadCreate pyStrip
    rw [show header ++ joinSep [',', '\n'] old ++ [';', '\n']
        = (header ++ joinSep [',', '\n'] old) ++ [';', '\n'] by simp [List.append_assoc]]
    rw [stripLeft_eq_self _ c0 (by
        cases header with
        | nil => simp at hh
        | cons a rest => simpa using hh) h0]
    exact stripRight_semi _
  have e1 : stripSemi (pyStrip (uploadCreate header old))
      = header ++ joinSep [',', '\n'] old := by
    rw [e0]
    unfold stripSemi
    rw [if_pos (List.getLast?_concat _), List.dropLast_concat]
    exact pyStrip_eq_self _ c0 ')' hhead h0 hlastA rfl
  unfold uploadAppend
  rw [e1, if_neg hnew]
  rw [if_pos hlastA]
  unfold uploadCreate
  rw [joinSep_append _ old new hold hnew]
  simp [List.append_assoc]

/-- Looking up a title just written finds the written content. -/
theorem dsFind_dsSet_self :
    ∀ (ds : DriveState) (title : String) (content : List Char),
      dsFind (dsSet ds title content) title = some content
  | [], _, _ => by simp [dsSet, dsFind]
  | (t, c) :: rest, title, content => by
    by_cases h : t = title
    · simp [dsSet, h, dsFind]
    · simp [dsSet, h, dsFind, dsFind_dsSet_self rest title content]

/-- The last rendered tuple of a non-empty row list ends with a closing
parenthesis, expressed on the join. -/
theorem joinSep_map_renderRow_getLast (old : List (List Value)) (hold : old ≠ []) :
    (joinSep [',', '\n'] (old.map renderRow)).getLast? = some ')' := by
  have hmap : (old.map renderRow).getLast? = some (renderRow (old.getLast hold)) := by
    rw [← List.head?_reverse, ← List.map_reverse, List.head?_map, List.head?_reverse,
      List.getLast?_eq_getLast old hold]
    rfl
  exact joinSep_getLast _ (old.map renderRow) (renderRow (old.getLast hold)) ')'
    hmap (renderRow_getLast _)

/-- C2: appending a payload of M rendered value tuples to a remote object
that holds the canonical rendering of N tuples yields exactly the
canonical rendering of the N+M tuples in original-then-new order — one
header, the tuples joined by the record separator, and the terminator
present once at the end; and whenever the (normalized) existing content
does not end with a closing-tuple parenthesis, the writer inserts a
newline before the appended tuples. -/
theorem upload_append_spec :
    (∀ (ds : DriveState) (f table : String) (cols : List String) (hdr2 : List Char)
        (old new : List (List Value)),
        dsFind ds f = some (uploadCreate (insertHeader table cols) (old.map renderRow)) →
        old ≠ [] → new ≠ [] →
        dsFind (upload_to_gdrive ds f hdr2 (new.map renderRow)) f
            = some (uploadCreate (insertHeader table cols) ((old ++ new).map renderRow))
          ∧ ((old ++ new).map renderRow).length = old.length + new.length)
    ∧ (∀ (existing : List Char) (new_rows : List (List Char)),
        new_rows ≠ [] →
        (stripSemi (pyStrip existing)).getLast? ≠ some ')' →
        uploadAppend existing new_rows
          = stripSemi (pyStrip existing) ++ ['\n'] ++ [',', '\n']
            ++ joinSep [',', '\n'] new_rows ++ [';', '\n']) := by
  constructor
  · intro ds f table cols hdr2 old new hfind hold hnew
    refine ⟨?_, by simp⟩
    unfold upload_to_gdrive
    rw [hfind, dsFind_dsSet_self]
    congr 1
    rw [List.map_append]
    exact uploadAppend_uploadCreate (insertHeader table cols) 'I' (insertHeader_head _ _)
      (by decide) (old.map renderRow) (new.map renderRow) (by simp [hold]) (by simp [hnew])
      (joinSep_map_renderRow_getLast old hold)
  · intro existing new_rows hnew hlast
    unfold uploadAppend
    rw [if_neg hnew, if_neg hlast]

/-- Witness for C2: appending one tuple to an object holding one tuple
gives the canonical two-tuple object. -/
theorem upload_append_spec_witness :
    dsFind (upload_to_gdrive c2Drive "f.sql" [] ([[Value.intV 2]].map renderRow)) "f.sql"
        = some (uploadCreate (insertHeader "t" ["a"])
            (([[Value.intV 1]] ++ [[Value.intV 2]]).map renderRow))
      ∧ (([[Value.intV 1]] ++ [[Value.intV 2]]).map renderRow).length = 1 + 1 :=
  upload_append_spec.1 c2Drive "f.sql" "t" ["a"] [] [[Value.intV 1]] [[Value.intV 2]]
    rfl (by decide) (by decide)

/-- C5: committing the same non-empty payload twice (create, then append)
produces a remote object whose content is the canonical rendering of the
payload tuples twice over, so each value tuple occurs twice as often as
in a single payload — the writer is not idempotent against payload
replay. -/
theorem upload_twice_duplicates (ds : DriveState) (f table : String) (cols : List String)
    (rows : List (List Value)) (h : rows ≠ []) (hf : dsFind ds f = none) :
    dsFind (upload_to_gdrive
        (upload_to_gdrive ds f (insertHeader table cols) (rows.map renderRow))
        f (insertHeader table cols) (rows.map renderRow)) f
      = some (uploadCreate (insertHeader table cols) ((rows ++ rows).map renderRow))
    ∧ ∀ tup : List Char, ((rows ++ rows).map renderRow).count tup
        = 2 * ((rows.map renderRow).count tup) := by
  constructor
  · have h1 : upload_to_gdrive ds f (insertHeader table cols) (rows.map renderRow)
        = dsSet ds f (uploadCreate (insertHeader table cols) (rows.map renderRow)) := by
      unfold upload_to_gdrive
      rw [hf]
    have h2 : upload_to_gdrive
          (dsSet ds f (uploadCreate (insertHeader table cols) (rows.map renderRow)))
          f (insertHeader table cols) (rows.map renderRow)
        = dsSet (dsSet ds f (uploadCreate (insertHeader table cols) (rows.map renderRow)))
            f (uploadAppend (uploadCreate (insertHeader table cols) (rows.map renderRow))
                (rows.map renderRow)) := by
      unfold upload_to_gdrive
      rw [dsFind_dsSet_self]
    rw [h1, h2, dsFind_dsSet_self]
    congr 1
    rw [List.map_append]
    exact uploadAppend_uploadCreate (insertHeader table cols) 'I' (insertHeader_head _ _)
      (by decide) (rows.map renderRow) (rows.map renderRow) (by simp [h]) (by simp [h])
      (joinSep_map_renderRow_getLast rows h)
  · intro tup
    rw [List.map_append, List.count_append]
    omega

/-- Witness for C5: committing the payload `[(1)]` twice onto an empty
drive duplicates the tuple. -/
theorem upload_twice_duplicates_witness :
    dsFind (upload_to_gdrive
        (upload_to_gdrive [] "f.sql" (insertHeader "t" ["a"]) ([[Value.intV 1]].map renderRow))
        "f.sql" (insertHeader "t" ["a"]) ([[Value.intV 1]].map renderRow)) "f.sql"
      = some (uploadCreate (insertHeader "t" ["a"])
          (([[Value.intV 1]] ++ [[Value.intV 1]]).map renderRow))
    ∧ ∀ tup : List Char, (([[Value.intV 1]] ++ [[Value.intV 1]]).map renderRow).count tup
        = 2 * (([[Value.intV 1]].map renderRow).count tup) :=
  upload_twice_duplicates [] "f.sql" "t" ["a"] [[Value.intV 1]] (by decide) rfl

/-! ## Dedup claim -/

/-- C8: an event whose dedup key ⟨subject id, timestamp, event kind⟩ is
already present in either target table is skipped: `insert_log_to_db`
returns `False` and leaves both tables unchanged.  Moreover, immediately
repeating an insert of the same event never adds a second copy to either
table. -/
theorem insert_log_dedup (db : LogDB) (u n : String) (ts : Nat) (status : String)
    (h : (log_exists_in_attendance db u ts (if status = "Check-In" then 0 else 1)
        || log_exists_in_raw_zoho db u ts (if status = "Check-In" then 0 else 1)) = true) :
    insert_log_to_db db u n ts status = (db, false)
    ∧ ∀ db2 : LogDB,
        (insert_log_to_db (insert_log_to_db db2 u n ts status).1 u n ts status).1
          = (insert_log_to_db db2 u n ts status).1 := by
  constructor
  · simp only [insert_log_to_db]
    rw [if_pos h]
  · intro db2
    by_cases hc : (log_exists_in_attendance db2 u ts (if status = "Check-In" then 0 else 1)
        || log_exists_in_raw_zoho db2 u ts (if status = "Check-In" then 0 else 1)) = true
    · simp only [insert_log_to_db]
      rw [if_pos hc, if_pos hc]
    · simp only [insert_log_to_db]
      rw [if_neg hc]
      simp only []
      rw [if_pos]
      simp [log_exists_in_attendance]

/-- Witness for C8 at a concrete database: the event
⟨"u1", 10, Check-In⟩ already sits in `attendance_logs`, so the insert is
a no-op returning `False`. -/
theorem insert_log_dedup_witness :
    insert_log_to_db ⟨[⟨"u1", "A", 10, 0, 1, "zoho"⟩], []⟩ "u1" "A" 10 "Check-In"
      = (⟨[⟨"u1", "A", 10, 0, 1, "zoho"⟩], []⟩, false) :=
  (insert_log_dedup ⟨[⟨"u1", "A", 10, 0, 1, "zoho"⟩], []⟩ "u1" "A" 10 "Check-In"
    (by decide)).1

/-! ## Fetcher lemmas -/

theorem mem_insertByTs (r x : FetchedRow) :
    ∀ l : List FetchedRow, x ∈ insertByTs r l ↔ x = r ∨ x ∈ l
  | [] => by simp [insertByTs]
  | y :: ys => by
    unfold insertByTs
    by_cases h : r.ts ≤ y.ts
    · simp [h]
    · rw [if_neg h]
      simp only [List.mem_cons, mem_insertByTs r x ys]
      tauto

theorem mem_sortByTs (x : FetchedRow) :
    ∀ l : List FetchedRow, x ∈ sortByTs l ↔ x ∈ l
  | [] => Iff.rfl
  | y :: ys => by
    unfold sortByTs
    rw [mem_insertByTs, mem_sortByTs x ys]
    simp

theorem pairwise_insertByTs (r : FetchedRow) :
    ∀ l : List FetchedRow, l.Pairwise (fun a b => a.ts ≤ b.ts) →
      (insertByTs r l).Pairwise (fun a b => a.ts ≤ b.ts)
  | [], _ => by simp [insertByTs]
  | y :: ys, h => by
    unfold insertByTs
    rw [List.pairwise_cons] at h
    by_cases hle : r.ts ≤ y.ts
    · rw [if_pos hle]
      refine List.pairwise_cons.2 ⟨?_, List.pairwise_cons.2 h⟩
      intro b hb
      rcases List.mem_cons.1 hb with rfl | hb'
      · exact hle
      · exact le_trans hle (h.1 b hb')
    · rw [if_neg hle]
      refine List.pairwise_cons.2 ⟨?_, pairwise_insertByTs r ys h.2⟩
      intro b hb
      rcases (mem_insertByTs r b ys).1 hb with rfl | hb'
      · omega
      · exact h.1 b hb'

theorem pairwise_sortByTs :
    ∀ l : List FetchedRow, (sortByTs l).Pairwise (fun a b => a.ts ≤ b.ts)
  | [] => List.Pairwise.nil
  | y :: ys => pairwise_insertByTs y (sortByTs ys) (pairwise_sortByTs ys)

theorem lastTs_eq_getLast (l : List FetchedRow) (h : l ≠ []) (d : Nat) :
    lastTs l d = (l.getLast h).ts := by
  simp [lastTs, List.getLast?_eq_getLast l h]

theorem lastTs_mem (l : List FetchedRow) (h : l ≠ []) (d : Nat) :
    ∃ r ∈ l, lastTs l d = r.ts :=
  ⟨l.getLast h, List.getLast_mem h, lastTs_eq_getLast l h d⟩

/-- In an ascending list the last timestamp bounds every row. -/
theorem ts_le_lastTs (d : Nat) :
    ∀ l : List FetchedRow, l.Pairwise (fun a b => a.ts ≤ b.ts) →
      ∀ x ∈ l, x.ts ≤ lastTs l d
  | [], _, x, hx => absurd hx (by simp)
  | [y], _, x, hx => by
    simp only [List.mem_singleton] at hx
    subst hx
    simp [lastTs]
  | y :: y' :: ys, h, x, hx => by
    rw [List.pairwise_cons] at h
    have hlast : lastTs (y :: y' :: ys) d = lastTs (y' :: ys) d := by
      simp [lastTs, List.getLast?_cons_cons]
    rcases List.mem_cons.1 hx with rfl | hx'
    · rw [hlast, lastTs_eq_getLast (y' :: ys) (by simp) d]
      exact h.1 _ (List.getLast_mem _)
    · rw [hlast]
      exact ts_le_lastTs d (y' :: ys) h.2 x hx'

theorem mem_fetchRows (tbl : List FetchedRow) (w : Nat) (x : FetchedRow) :
    x ∈ fetchRows tbl w ↔ x ∈ tbl ∧ w < x.ts := by
  unfold fetchRows
  rw [mem_sortByTs, List.mem_filter]
  simp

theorem fetchRows_eq_nil (tbl : List FetchedRow) (w : Nat)
    (h : ∀ r ∈ tbl, r.ts ≤ w) : fetchRows tbl w = [] := by
  unfold fetchRows
  have hf : tbl.filter (fun r => w < r.ts) = [] := by
    rw [List.filter_eq_nil_iff]
    intro a ha
    simpa using Nat.not_lt.2 (h a ha)
  rw [hf]
  rfl

theorem backup_table_of_ne_nil (t : String) (cols : List String)
    (fetched : List FetchedRow) (w : Nat) (h : fetched ≠ []) :
    backup_table t cols fetched w
      = (some (insertHeader t cols, (fetched.map (·.vals)).map renderRow),
         lastTs fetched w) := by
  unfold backup_table generate_insert_components
  rw [if_neg h, if_neg (by simpa using h)]

/-! ## Checkpoint map lemmas -/

theorem lookupTime_setTime_self :
    ∀ (m : TimesMap) (k : String) (v : Nat), lookupTime (setTime m k v) k = some v
  | [], _, _ => by simp [setTime, lookupTime]
  | (k', v') :: rest, k, v => by
    by_cases h : k' = k
    · simp [setTime, h, lookupTime]
    · simp [setTime, h, lookupTime, lookupTime_setTime_self rest k v]

theorem lookupTime_setTime_ne :
    ∀ (m : TimesMap) (k : String) (v : Nat) (x : String), x ≠ k →
      lookupTime (setTime m k v) x = lookupTime m x
  | [], k, v, x, hx => by simp [setTime, lookupTime, Ne.symm hx]
  | (k', v') :: rest, k, v, x, hx => by
    by_cases h : k' = k
    · subst h
      simp [setTime, lookupTime, Ne.symm hx]
    · simp only [setTime, if_neg h, lookupTime]
      by_cases h2 : k' = x
      · simp [h2]
      · simp [h2, lookupTime_setTime_ne rest k v x hx]

/-! ## Loop lemmas -/

/-- Complete case analysis of one loop iteration. -/
theorem stepSource_cases (env : Env) (last : TimesMap) (t : String) (s : LoopState) :
    (∃ s', stepSource env last t s = .error s'
        ∧ s'.updated = s.updated ∧ s'.drive = s.drive
        ∧ ((s'.log = s.log ++ [(t, Outcome.fetchFailed)] ∧ env.tableData t = none)
          ∨ (s'.log = s.log ++ [(t, Outcome.uploadFailed)] ∧ env.uploadOk t = false)))
    ∨ (∃ s', stepSource env last t s = .ok s'
        ∧ ((∃ tbl, env.tableData t = some tbl ∧ fetchRows tbl (getTime last t) = []
              ∧ s' = { s with log := s.log ++ [(t, Outcome.noRows)] })
          ∨ (∃ tbl, env.tableData t = some tbl
              ∧ fetchRows tbl (getTime last t) ≠ []
              ∧ env.uploadOk t = true
              ∧ s' = { updated := setTime s.updated t
                          (lastTs (fetchRows tbl (getTime last t)) (getTime last t)),
                       drive := upload_to_gdrive s.drive (fileNameOf t)
                          (insertHeader t (env.columns t))
                          (((fetchRows tbl (getTime last t)).map (·.vals)).map renderRow),
                       log := s.log ++ [(t, Outcome.uploaded (fetchRows tbl (getTime last t))
                          (lastTs (fetchRows tbl (getTime last t)) (getTime last t)))] }))) := by
  cases htd : env.tableData t with
  | none =>
    refine Or.inl ⟨{ s with log := s.log ++ [(t, Outcome.fetchFailed)] }, ?_, rfl, rfl,
      Or.inl ⟨rfl, rfl⟩⟩
    simp [stepSource, htd]
  | some tbl =>
    by_cases hf : fetchRows tbl (getTime last t) = []
    · refine Or.inr ⟨{ s with log := s.log ++ [(t, Outcome.noRows)] }, ?_,
        Or.inl ⟨tbl, rfl, hf, rfl⟩⟩
      simp only [stepSource, htd, hf]
      rfl
    · cases hup : env.uploadOk t with
      | false =>
        refine Or.inl ⟨{ s with log := s.log ++ [(t, Outcome.uploadFailed)] }, ?_, rfl, rfl,
          Or.inr ⟨rfl, rfl⟩⟩
        simp only [stepSource, htd, backup_table_of_ne_nil t (env.columns t) _ _ hf, hup]
        rfl
      | true =>
        refine Or.inr ⟨_, ?_, Or.inr ⟨tbl, rfl, hf, rfl, rfl⟩⟩
        simp only [stepSource, htd, backup_table_of_ne_nil t (env.columns t) _ _ hf, hup]
        rfl

/-- A successful iteration appends exactly one non-failure log entry for
its source. -/
theorem stepSource_ok_log (env : Env) (last : TimesMap) (t : String) (s s' : LoopState)
    (h : stepSource env last t s = .ok s') :
    ∃ o : Outcome, s'.log = s.log ++ [(t, o)]
      ∧ o ≠ Outcome.fetchFailed ∧ o ≠ Outcome.uploadFailed := by
  rcases stepSource_cases env last t s with
    ⟨s1, hstep, _, _, _⟩ | ⟨s1, hstep, hcase⟩
  · rw [hstep] at h
    exact absurd h (by simp)
  · rw [hstep] at h
    injection h with h1
    subst h1
    rcases hcase with ⟨tbl, _, _, hs1⟩ | ⟨tbl, _, _, _, hs1⟩
    · exact ⟨Outcome.noRows, by rw [hs1], by simp, by simp⟩
    · exact ⟨_, by rw [hs1], by simp, by simp⟩

/-- A raising iteration appends exactly one log entry for its source. -/
theorem stepSource_error_log (env : Env) (last : TimesMap) (t : String) (s s' : LoopState)
    (h : stepSource env last t s = .error s') :
    ∃ o : Outcome, s'.log = s.log ++ [(t, o)] := by
  rcases stepSource_cases env last t s with
    ⟨s1, hstep, _, _, (⟨hlog, _⟩ | ⟨hlog, _⟩)⟩ | ⟨s1, hstep, _⟩
  · rw [hstep] at h
    injection h with h1
    subst h1
    exact ⟨_, hlog⟩
  · rw [hstep] at h
    injection h with h1
    subst h1
    exact ⟨_, hlog⟩
  · rw [hstep] at h
    exact absurd h (by simp)

/-- The loop only appends to the log. -/
theorem processLoop_log_extend (env : Env) (last : TimesMap) :
    ∀ (ts : List String) (s : LoopState),
      ∃ l', ((processLoop env last ts s).state).log = s.log ++ l'
  | [], s => ⟨[], by simp [processLoop, LoopResult.state]⟩
  | t :: rest, s => by
    cases hstep : stepSource env last t s with
    | error s1 =>
      obtain ⟨o, hlog⟩ := stepSource_error_log env last t s s1 hstep
      exact ⟨[(t, o)], by simp [processLoop, hstep, LoopResult.state, hlog]⟩
    | ok s1 =>
      obtain ⟨o, hlog, _, _⟩ := stepSource_ok_log env last t s s1 hstep
      obtain ⟨l', hl⟩ := processLoop_log_extend env last rest s1
      refine ⟨(t, o) :: l', ?_⟩
      simp only [processLoop, hstep]
      rw [hl, hlog, List.append_assoc]
      rfl

/-- Every log entry the loop adds names a source from the processed
list. -/
theorem processLoop_log_keys (env : Env) (last : TimesMap) :
    ∀ (ts : List String) (s : LoopState) (e : String × Outcome),
      e ∈ ((processLoop env last ts s).state).log → e ∈ s.log ∨ e.1 ∈ ts
  | [], s, e => by
    intro h
    exact Or.inl (by simpa [processLoop, LoopResult.state] using h)
  | t :: rest, s, e => by
    intro h
    cases hstep : stepSource env last t s with
    | error s1 =>
      obtain ⟨o, hlog⟩ := stepSource_error_log env last t s s1 hstep
      rw [processLoop, hstep] at h
      simp only [LoopResult.state] at h
      rw [hlog] at h
      rcases List.mem_append.1 h with h' | h'
      · exact Or.inl h'
      · simp only [List.mem_singleton] at h'
        subst h'
        exact Or.inr (by simp)
    | ok s1 =>
      obtain ⟨o, hlog, _, _⟩ := stepSource_ok_log env last t s s1 hstep
      rw [processLoop, hstep] at h
      rcases processLoop_log_keys env last rest s1 e h with h' | h'
      · rw [hlog] at h'
        rcases List.mem_append.1 h' with h'' | h''
        · exact Or.inl h''
        · simp only [List.mem_singleton] at h''
          subst h''
          exact Or.inr (by simp)
      · exact Or.inr (List.mem_cons_of_mem _ h')

/-- A loop that completes never logged a failure. -/
theorem processLoop_done_no_fail (env : Env) (last : TimesMap) :
    ∀ (ts : List String) (s s' : LoopState),
      processLoop env last ts s = .done s' →
      ∀ (t : String) (o : Outcome),
        o = Outcome.fetchFailed ∨ o = Outcome.uploadFailed →
        (t, o) ∈ s'.log → (t, o) ∈ s.log
  | [], s, s', hdone, t, o, ho, hmem => by
    rw [processLoop] at hdone
    injection hdone with h
    subst h
    exact hmem
  | u :: rest, s, s', hdone, t, o, ho, hmem => by
    rw [processLoop] at hdone
    cases hstep : stepSource env last u s with
    | error s1 => rw [hstep] at hdone; exact absurd hdone (by simp)
    | ok s1 =>
      rw [hstep] at hdone
      obtain ⟨o1, hlog, hne1, hne2⟩ := stepSource_ok_log env last u s s1 hstep
      have h1 := processLoop_done_no_fail env last rest s1 s' hdone t o ho hmem
      rw [hlog] at h1
      rcases List.mem_append.1 h1 with h' | h'
      · exact h'
      · simp only [List.mem_singleton, Prod.mk.injEq] at h'
        rcases ho with rfl | rfl
        · exact absurd h'.2.symm hne1
        · exact absurd h'.2.symm hne2

/-- Watermarks of sources outside the processed list are untouched. -/
theorem processLoop_frame_not_mem (env : Env) (last : TimesMap) :
    ∀ (ts : List String) (s : LoopState) (k : String), k ∉ ts →
      lookupTime (((processLoop env last ts s).state).updated) k
        = lookupTime s.updated k
  | [], s, k, _ => by simp [processLoop, LoopResult.state]
  | t :: rest, s, k, hk => by
    have hkt : k ≠ t := fun h => hk (h ▸ List.mem_cons_self t rest)
    have hkrest : k ∉ rest := fun h => hk (List.mem_cons_of_mem _ h)
    rcases stepSource_cases env last t s with
      ⟨s1, hstep, hupd, _, _⟩ |
      ⟨s1, hstep, (⟨tbl, _, _, hs1⟩ | ⟨tbl, _, _, _, hs1⟩)⟩
    · simp [processLoop, hstep, LoopResult.state, hupd]
    · rw [processLoop, hstep, processLoop_frame_not_mem env last rest s1 k hkrest, hs1]
    · rw [processLoop, hstep, processLoop_frame_not_mem env last rest s1 k hkrest, hs1]
      exact lookupTime_setTime_ne _ _ _ _ hkt

/-- Membership in `uploadedKeys`. -/
theorem mem_uploadedKeys (log : List (String × Outcome)) (t : String) :
    t ∈ uploadedKeys log ↔ ∃ rows nt, (t, Outcome.uploaded rows nt) ∈ log := by
  unfold uploadedKeys
  rw [List.mem_filterMap]
  constructor
  · rintro ⟨⟨a, o⟩, hmem, hf⟩
    cases o with
    | uploaded rows nt =>
      simp only at hf
      injection hf with h
      subst h
      exact ⟨rows, nt, hmem⟩
    | noRows => simp at hf
    | fetchFailed => simp at hf
    | uploadFailed => simp at hf
  · rintro ⟨rows, nt, hmem⟩
    exact ⟨(t, .uploaded rows nt), hmem, rfl⟩

/-- Watermarks of sources with no confirmed upload in the log are
untouched. -/
theorem processLoop_frame_no_upload (env : Env) (last : TimesMap) :
    ∀ (ts : List String) (s : LoopState) (k : String),
      k ∉ uploadedKeys (((processLoop env last ts s).state).log) →
      lookupTime (((processLoop env last ts s).state).updated) k
        = lookupTime s.updated k
  | [], s, k, _ => by simp [processLoop, LoopResult.state]
  | t :: rest, s, k, hk => by
    rcases stepSource_cases env last t s with
      ⟨s1, hstep, hupd, _, _⟩ |
      ⟨s1, hstep, (⟨tbl, _, _, hs1⟩ | ⟨tbl, htd, hf, hup, hs1⟩)⟩
    · simp [processLoop, hstep, LoopResult.state, hupd]
    · rw [processLoop, hstep] at hk ⊢
      rw [processLoop_frame_no_upload env last rest s1 k hk, hs1]
    · rw [processLoop, hstep] at hk ⊢
      have hkt : k ≠ t := by
        intro hkt
        subst hkt
        apply hk
        obtain ⟨l', hl⟩ := processLoop_log_extend env last rest s1
        rw [mem_uploadedKeys]
        refine ⟨fetchRows tbl (getTime last k),
          lastTs (fetchRows tbl (getTime last k)) (getTime last k), ?_⟩
        rw [hl, hs1]
        simp
      rw [processLoop_frame_no_upload env last rest s1 k hk, hs1]
      exact lookupTime_setTime_ne _ _ _ _ hkt

/-- A confirmed-upload log entry of a completed loop pins down the rows
fetched for that source, the proposed watermark, and the final in-memory
checkpoint entry. -/
theorem processLoop_uploaded (env : Env) (last : TimesMap) :
    ∀ (ts : List String) (s s' : LoopState) (t : String)
      (rows : List FetchedRow) (nt : Nat),
      ts.Nodup → (∀ o : Outcome, (t, o) ∉ s.log) →
      processLoop env last ts s = .done s' →
      (t, Outcome.uploaded rows nt) ∈ s'.log →
      ∃ tbl, env.tableData t = some tbl
        ∧ rows = fetchRows tbl (getTime last t)
        ∧ rows ≠ []
        ∧ nt = lastTs rows (getTime last t)
        ∧ lookupTime s'.updated t = some nt
  | [], s, s', t, rows, nt, _, hnot, hdone, hmem => by
    rw [processLoop] at hdone
    injection hdone with h
    subst h
    exact absurd hmem (hnot _)
  | u :: rest, s, s', t, rows, nt, hnodup, hnot, hdone, hmem => by
    rw [List.nodup_cons] at hnodup
    rw [processLoop] at hdone
    rcases stepSource_cases env last u s with
      ⟨s1, hstep, _, _, _⟩ |
      ⟨s1, hstep, (⟨tbl, htd, hf, hs1⟩ | ⟨tbl, htd, hf, hup, hs1⟩)⟩
    · rw [hstep] at hdone
      exact absurd hdone (by simp)
    · -- no new rows for `u`
      rw [hstep] at hdone
      have hdone' : processLoop env last rest s1 = .done s' := hdone
      have hstate : (processLoop env last rest s1).state = s' := by rw [hdone']; rfl
      by_cases htu : t = u
      · subst htu
        rcases processLoop_log_keys env last rest s1 _
            (by rw [hstate]; exact hmem) with h' | h'
        · rw [hs1] at h'
          rcases List.mem_append.1 h' with h'' | h''
          · exact absurd h'' (hnot _)
          · simp at h''
        · exact absurd h' hnodup.1
      · refine processLoop_uploaded env last rest s1 s' t rows nt hnodup.2 ?_ hdone' hmem
        intro o ho
        rw [hs1] at ho
        rcases List.mem_append.1 ho with h'' | h''
        · exact hnot o h''
        · simp only [List.mem_singleton, Prod.mk.injEq] at h''
          exact htu h''.1
    · -- `u` uploaded
      rw [hstep] at hdone
      have hdone' : processLoop env last rest s1 = .done s' := hdone
      have hstate : (processLoop env last rest s1).state = s' := by rw [hdone']; rfl
      by_cases htu : t = u
      · subst htu
        have hkeys := processLoop_log_keys env last rest s1 (t, Outcome.uploaded rows nt)
          (by rw [hstate]; exact hmem)
        rcases hkeys with h' | h'
        · rw [hs1] at h'
          rcases List.mem_append.1 h' with h'' | h''
          · exact absurd h'' (hnot _)
          · simp only [List.mem_singleton, Prod.mk.injEq, Outcome.uploaded.injEq] at h''
            obtain ⟨hrows, hnt⟩ := h''.2
            subst hrows
            subst hnt
            refine ⟨tbl, htd, rfl, hf, rfl, ?_⟩
            have hframe := processLoop_frame_not_mem env last rest s1 t hnodup.1
            rw [hstate] at hframe
            rw [hframe, hs1]
            exact lookupTime_setTime_self _ _ _
        · exact absurd h' hnodup.1
      · refine processLoop_uploaded env last rest s1 s' t rows nt hnodup.2 ?_ hdone' hmem
        intro o ho
        rw [hs1] at ho
        rcases List.mem_append.1 ho with h'' | h''
        · exact hnot o h''
        · simp only [List.mem_singleton, Prod.mk.injEq] at h''
          exact htu h''.1

/-- When every source in the list has no rows past its watermark, the
loop completes, logging `noRows` for each source and changing nothing
else. -/
theorem processLoop_all_noRows (env : Env) (last : TimesMap) :
    ∀ (ts : List String) (s : LoopState),
      (∀ t ∈ ts, ∃ tbl, env.tableData t = some tbl
          ∧ fetchRows tbl (getTime last t) = []) →
      processLoop env last ts s
        = .done ⟨s.updated, s.drive, s.log ++ ts.map (fun t => (t, Outcome.noRows))⟩
  | [], s, _ => by simp [processLoop]
  | t :: rest, s, h => by
    obtain ⟨tbl, htd, hf⟩ := h t (List.mem_cons_self t rest)
    have hstep : stepSource env last t s
        = .ok { s with log := s.log ++ [(t, Outcome.noRows)] } := by
      simp only [stepSource, htd, hf]
      rfl
    rw [processLoop, hstep]
    show processLoop env last rest { s with log := s.log ++ [(t, Outcome.noRows)] } = _
    rw [processLoop_all_noRows env last rest _
      (fun u hu => h u (List.mem_cons_of_mem _ hu))]
    simp

/-- In a healthy environment the loop completes and every table row ends
up at or below its source's final in-memory watermark. -/
theorem processLoop_all_ok (env : Env) (last : TimesMap) :
    ∀ (ts : List String) (s : LoopState), ts.Nodup →
      (∀ t ∈ ts, (env.tableData t).isSome = true ∧ env.uploadOk t = true) →
      (∀ t ∈ ts, lookupTime s.updated t = lookupTime last t) →
      ∃ s', processLoop env last ts s = .done s'
        ∧ (∀ t ∈ ts, ∀ tbl, env.tableData t = some tbl →
            ∀ r ∈ tbl, r.ts ≤ getTime s'.updated t)
  | [], s, _, _, _ => ⟨s, by simp [processLoop], by simp⟩
  | u :: rest, s, hnodup, hgood, hinv => by
    rw [List.nodup_cons] at hnodup
    obtain ⟨hsome, hup⟩ := hgood u (List.mem_cons_self u rest)
    obtain ⟨tbl, htd⟩ := Option.isSome_iff_exists.1 hsome
    have hw : getTime s.updated u = getTime last u := by
      unfold getTime
      rw [hinv u (List.mem_cons_self u rest)]
    by_cases hf : fetchRows tbl (getTime last u) = []
    · have hstep : stepSource env last u s
          = .ok { s with log := s.log ++ [(u, Outcome.noRows)] } := by
        simp only [stepSource, htd, hf]
        rfl
      obtain ⟨s', hdone, hbound⟩ := processLoop_all_ok env last rest
        { s with log := s.log ++ [(u, Outcome.noRows)] } hnodup.2
        (fun t ht => hgood t (List.mem_cons_of_mem _ ht))
        (fun t ht => hinv t (List.mem_cons_of_mem _ ht))
      have hstate : (processLoop env last rest
          { s with log := s.log ++ [(u, Outcome.noRows)] }).state = s' := by
        rw [hdone]
        rfl
      refine ⟨s', ?_, ?_⟩
      · rw [processLoop, hstep]
        show processLoop env last rest { s with log := s.log ++ [(u, Outcome.noRows)] } = _
        exact hdone
      intro t ht tbl' htd' r hr
      rcases List.mem_cons.1 ht with rfl | ht'
      · -- the processed source itself: its watermark is unchanged and
        -- already bounds every row
        rw [htd] at htd'
        injection htd' with h1
        subst h1
        have hframe := processLoop_frame_not_mem env last rest
          { s with log := s.log ++ [(t, Outcome.noRows)] } t hnodup.1
        rw [hstate] at hframe
        have hts : r.ts ≤ getTime last t := by
          by_contra hlt
          exact absurd ((mem_fetchRows tbl (getTime last t) r).2
            ⟨hr, Nat.lt_of_not_le hlt⟩) (by rw [hf]; simp)
        have hgoal : getTime s'.updated t = getTime last t := by
          unfold getTime
          rw [hframe, hinv t (List.mem_cons_self t rest)]
        rw [hgoal]
        exact hts
      · exact hbound t ht' tbl' htd' r hr
    · have hstep : stepSource env last u s
          = .ok { updated := setTime s.updated u
                    (lastTs (fetchRows tbl (getTime last u)) (getTime last u)),
                  drive := upload_to_gdrive s.drive (fileNameOf u)
                    (insertHeader u (env.columns u))
                    (((fetchRows tbl (getTime last u)).map (·.vals)).map renderRow),
                  log := s.log ++ [(u, Outcome.uploaded (fetchRows tbl (getTime last u))
                    (lastTs (fetchRows tbl (getTime last u)) (getTime last u)))] } := by
        simp only [stepSource, htd, backup_table_of_ne_nil u (env.columns u) _ _ hf, hup]
        rfl
      obtain ⟨s', hdone, hbound⟩ := processLoop_all_ok env last rest
        { updated := setTime s.updated u
            (lastTs (fetchRows tbl (getTime last u)) (getTime last u)),
          drive := upload_to_gdrive s.drive (fileNameOf u)
            (insertHeader u (env.columns u))
            (((fetchRows tbl (getTime last u)).map (·.vals)).map renderRow),
          log := s.log ++ [(u, Outcome.uploaded (fetchRows tbl (getTime last u))
            (lastTs (fetchRows tbl (getTime last u)) (getTime last u)))] } hnodup.2
        (fun t ht => hgood t (List.mem_cons_of_mem _ ht))
        (fun t ht => by
          have htu : t ≠ u := fun h => hnodup.1 (h ▸ ht)
          show lookupTime (setTime s.updated u _) t = lookupTime last t
          rw [lookupTime_setTime_ne _ _ _ _ htu]
          exact hinv t (List.mem_cons_of_mem _ ht))
      have hstate : (processLoop env last rest
          { updated := setTime s.updated u
              (lastTs (fetchRows tbl (getTime last u)) (getTime last u)),
            drive := upload_to_gdrive s.drive (fileNameOf u)
              (insertHeader u (env.columns u))
              (((fetchRows tbl (getTime last u)).map (·.vals)).map renderRow),
            log := s.log ++ [(u, Outcome.uploaded (fetchRows tbl (getTime last u))
              (lastTs (fetchRows tbl (getTime last u)) (getTime last u)))] }).state
          = s' := by
        rw [hdone]
        rfl
      refine ⟨s', ?_, ?_⟩
      · rw [processLoop, hstep]
        show processLoop env last rest
          { updated := setTime s.updated u
              (lastTs (fetchRows tbl (getTime last u)) (getTime last u)),
            drive := upload_to_gdrive s.drive (fileNameOf u)
              (insertHeader u (env.columns u))
              (((fetchRows tbl (getTime last u)).map (·.vals)).map renderRow),
            log := s.log ++ [(u, Outcome.uploaded (fetchRows tbl (getTime last u))
              (lastTs (fetchRows tbl (getTime last u)) (getTime last u)))] } = _
        exact hdone
      intro t ht tbl' htd' r hr
      rcases List.mem_cons.1 ht with rfl | ht'
      · rw [htd] at htd'
        injection htd' with h1
        subst h1
        have hframe := processLoop_frame_not_mem env last rest
          { updated := setTime s.updated t
              (lastTs (fetchRows tbl (getTime last t)) (getTime last t)),
            drive := upload_to_gdrive s.drive (fileNameOf t)
              (insertHeader t (env.columns t))
              (((fetchRows tbl (getTime last t)).map (·.vals)).map renderRow),
            log := s.log ++ [(t, Outcome.uploaded (fetchRows tbl (getTime last t))
              (lastTs (fetchRows tbl (getTime last t)) (getTime last t)))] } t hnodup.1
        rw [hstate] at hframe
        have hnt : getTime s'.updated t
            = lastTs (fetchRows tbl (getTime last t)) (getTime last t) := by
          unfold getTime
          rw [hframe]
          show (lookupTime (setTime s.updated t _) t).getD 0 = _
          rw [lookupTime_setTime_self]
          rfl
        rw [hnt]
        obtain ⟨rmax, hrmaxF, hrmax⟩ :=
          lastTs_mem (fetchRows tbl (getTime last t)) hf (getTime last t)
        have hwlt : getTime last t
            < lastTs (fetchRows tbl (getTime last t)) (getTime last t) := by
          rw [hrmax]
          exact ((mem_fetchRows tbl (getTime last t) rmax).1 hrmaxF).2
        by_cases hrf : getTime last t < r.ts
        · have hrF : r ∈ fetchRows tbl (getTime last t) :=
            (mem_fetchRows tbl (getTime last t) r).2 ⟨hr, hrf⟩
          exact ts_le_lastTs (getTime last t) (fetchRows tbl (getTime last t))
            (pairwise_sortByTs _) r hrF
        · exact le_trans (Nat.le_of_not_lt hrf) (Nat.le_of_lt hwlt)
      · exact hbound t ht' tbl' htd' r hr

/-! ## `main` run lemmas -/

/-- A completed loop makes `main` save the updated map. -/
theorem mainRun_of_done (env : Env) (d0 : DriveState) (f0 : Option TimesMap)
    (s' : LoopState)
    (hdb : env.dbConnect = true) (hg : env.gdriveOk = true)
    (hp : processLoop env (loadTimes f0) TABLES ⟨loadTimes f0, d0, []⟩ = .done s') :
    mainRun env d0 f0 = ⟨some s'.updated, true, s'.drive, s'.log⟩ := by
  simp [mainRun, hdb, hg, hp]

/-- If the checkpoint file was saved then both external services were up
and the loop completed. -/
theorem mainRun_inv_save (env : Env) (d0 : DriveState) (f0 : Option TimesMap)
    (h : (mainRun env d0 f0).saveCalled = true) :
    env.dbConnect = true ∧ env.gdriveOk = true
    ∧ ∃ s', processLoop env (loadTimes f0) TABLES ⟨loadTimes f0, d0, []⟩ = .done s'
        ∧ mainRun env d0 f0 = ⟨some s'.updated, true, s'.drive, s'.log⟩ := by
  cases hdb : env.dbConnect with
  | false => simp [mainRun, hdb] at h
  | true =>
    cases hg : env.gdriveOk with
    | false => simp [mainRun, hdb, hg] at h
    | true =>
      cases hp : processLoop env (loadTimes f0) TABLES ⟨loadTimes f0, d0, []⟩ with
      | raised s1 => simp [mainRun, hdb, hg, hp] at h
      | done s1 => exact ⟨rfl, rfl, s1, rfl, mainRun_of_done env d0 f0 s1 hdb hg hp⟩

/-- A run in whose log some source failed did not save, and left the
checkpoint file as it was. -/
theorem mainRun_raised_shape (env : Env) (d0 : DriveState) (f0 : Option TimesMap)
    (t : String)
    (h : (t, Outcome.uploadFailed) ∈ (mainRun env d0 f0).log
       ∨ (t, Outcome.fetchFailed) ∈ (mainRun env d0 f0).log) :
    (mainRun env d0 f0).saveCalled = false ∧ (mainRun env d0 f0).fileAfter = f0 := by
  cases hdb : env.dbConnect with
  | false =>
    have hrun : mainRun env d0 f0 = ⟨f0, false, d0, []⟩ := by simp [mainRun, hdb]
    rw [hrun] at h
    simp at h
  | true =>
    cases hg : env.gdriveOk with
    | false =>
      have hrun : mainRun env d0 f0 = ⟨f0, false, d0, []⟩ := by simp [mainRun, hdb, hg]
      rw [hrun] at h
      simp at h
    | true =>
      cases hp : processLoop env (loadTimes f0) TABLES ⟨loadTimes f0, d0, []⟩ with
      | done s1 =>
        have hrun : mainRun env d0 f0 = ⟨some s1.updated, true, s1.drive, s1.log⟩ :=
          mainRun_of_done env d0 f0 s1 hdb hg hp
        rw [hrun] at h
        rcases h with h | h
        · exact absurd (processLoop_done_no_fail env (loadTimes f0) TABLES _ s1 hp t _
            (Or.inr rfl) h) (List.not_mem_nil _)
        · exact absurd (processLoop_done_no_fail env (loadTimes f0) TABLES _ s1 hp t _
            (Or.inl rfl) h) (List.not_mem_nil _)
      | raised s1 =>
        have hrun : mainRun env d0 f0 = ⟨f0, false, s1.drive, s1.log⟩ := by
          simp [mainRun, hdb, hg, hp]
        rw [hrun]
        exact ⟨rfl, rfl⟩

/-! ## Run-level claims -/

/-- C1: for a source whose export succeeded in a run that completed (the
checkpoint file was saved), the watermark recorded in the saved file is
the proposed new time, which is at least the watermark loaded at run
start and equals the maximum ordering-column value among the rows
exported for that source in the run. -/
theorem run_watermark_monotone (env : Env) (d0 : DriveState) (f0 : Option TimesMap)
    (t : String) (rows : List FetchedRow) (nt : Nat)
    (hsave : (mainRun env d0 f0).saveCalled = true)
    (hmem : (t, Outcome.uploaded rows nt) ∈ (mainRun env d0 f0).log) :
    ∃ saved, (mainRun env d0 f0).fileAfter = some saved
      ∧ lookupTime saved t = some nt
      ∧ getTime (loadTimes f0) t ≤ nt
      ∧ nt ∈ rows.map (·.ts)
      ∧ ∀ x ∈ rows.map (·.ts), x ≤ nt := by
  obtain ⟨hdb, hg, s', hp, hrun⟩ := mainRun_inv_save env d0 f0 hsave
  have hmem' : (t, Outcome.uploaded rows nt) ∈ s'.log := by
    rw [hrun] at hmem
    exact hmem
  obtain ⟨tbl, htd, hrows, hne, hnt, hlook⟩ := processLoop_uploaded env (loadTimes f0)
    TABLES ⟨loadTimes f0, d0, []⟩ s' t rows nt (by decide)
    (fun o ho => List.not_mem_nil _ ho) hp hmem'
  subst hrows
  obtain ⟨rmax, hrmaxF, hrmax⟩ :=
    lastTs_mem (fetchRows tbl (getTime (loadTimes f0) t)) hne (getTime (loadTimes f0) t)
  refine ⟨s'.updated, by rw [hrun], by rw [hlook, hnt], ?_, ?_, ?_⟩
  · have hlt : getTime (loadTimes f0) t < rmax.ts :=
      ((mem_fetchRows tbl (getTime (loadTimes f0) t) rmax).1 hrmaxF).2
    rw [hnt, hrmax]
    exact Nat.le_of_lt hlt
  · rw [hnt, hrmax]
    exact List.mem_map_of_mem _ hrmaxF
  · intro x hx
    obtain ⟨r, hrF, hrx⟩ := List.mem_map.1 hx
    rw [← hrx, hnt]
    exact ts_le_lastTs _ _ (pairwise_sortByTs _) r hrF

/-- Witness for C1: in a healthy run with one row at timestamp 5 per
source, the saved watermark for `attendance_logs` is 5, at least the
loaded epoch, and it is the maximum exported timestamp. -/
theorem run_watermark_monotone_witness :
    ∃ saved, (mainRun envC1 [] none).fileAfter = some saved
      ∧ lookupTime saved "attendance_logs" = some 5
      ∧ getTime (loadTimes none) "attendance_logs" ≤ 5
      ∧ 5 ∈ ([⟨5, [Value.intV 5]⟩] : List FetchedRow).map (·.ts)
      ∧ ∀ x ∈ ([⟨5, [Value.intV 5]⟩] : List FetchedRow).map (·.ts), x ≤ 5 :=
  run_watermark_monotone envC1 [] none "attendance_logs" [⟨5, [Value.intV 5]⟩] 5
    (by decide) (by decide)

/-- Counterexample to C3 as stated: with the database connection up and a
failing remote write for the second source only, the run does not
continue to the third source and the checkpoint save is not performed —
there is no per-source handler in `main`. -/
theorem run_abort_counterexample :
    (mainRun envC3fail [] (some [("attendance_logs", 0), ("raw_device_logs", 0),
        ("raw_zoho_logs", 0)])).saveCalled = false
    ∧ (mainRun envC3fail [] (some [("attendance_logs", 0), ("raw_device_logs", 0),
        ("raw_zoho_logs", 0)])).log.map Prod.fst
      = ["attendance_logs", "raw_device_logs"] := by
  constructor
  · decide
  · decide

/-- C3 (amended): an individual source failure (fetch or remote write)
raises to `main`'s single top-level handler: the remaining sources are
skipped, the checkpoint save is not performed and the file is left as it
was; the save happens (exactly once, at the end) when every source
completes without an exception.  A database-connection failure or a
remote-authentication failure likewise ends the run before any source is
processed. -/
theorem run_failure_abort_policy (env : Env) (d0 : DriveState) (f0 : Option TimesMap) :
    (∀ t : String,
        ((t, Outcome.uploadFailed) ∈ (mainRun env d0 f0).log
          ∨ (t, Outcome.fetchFailed) ∈ (mainRun env d0 f0).log) →
        (mainRun env d0 f0).saveCalled = false ∧ (mainRun env d0 f0).fileAfter = f0)
    ∧ ((env.dbConnect = true ∧ env.gdriveOk = true
          ∧ (∀ t ∈ TABLES, (env.tableData t).isSome = true ∧ env.uploadOk t = true)) →
        (mainRun env d0 f0).saveCalled = true) := by
  constructor
  · intro t h
    exact mainRun_raised_shape env d0 f0 t h
  · rintro ⟨hdb, hg, hgood⟩
    obtain ⟨s', hdone, _⟩ := processLoop_all_ok env (loadTimes f0) TABLES
      ⟨loadTimes f0, d0, []⟩ (by decide) hgood (fun t _ => rfl)
    rw [mainRun_of_done env d0 f0 s' hdb hg hdone]

/-- Witness for C3 (amended): a healthy run saves. -/
theorem run_failure_abort_policy_witness :
    (mainRun envC3good [] none).saveCalled = true :=
  (run_failure_abort_policy envC3good [] none).2 ⟨rfl, rfl, by decide⟩

/-- C4: when a source's remote merge write fails during a run, the
persisted checkpoint value for that source after the run equals its value
before the run — the watermark is never advanced for a source whose
remote write was not confirmed (the failed run performs no save at
all). -/
theorem run_no_advance_on_failed_write (env : Env) (d0 : DriveState)
    (f0 : Option TimesMap) (t : String)
    (h : (t, Outcome.uploadFailed) ∈ (mainRun env d0 f0).log) :
    persistedValue (mainRun env d0 f0).fileAfter t = persistedValue f0 t := by
  obtain ⟨_, hfile⟩ := mainRun_raised_shape env d0 f0 t (Or.inl h)
  rw [hfile]

/-- Witness for C4: with the first source's write failing, its persisted
watermark stays at 2. -/
theorem run_no_advance_on_failed_write_witness :
    persistedValue (mainRun envC4 [] (some [("attendance_logs", 2)])).fileAfter
        "attendance_logs"
      = persistedValue (some [("attendance_logs", 2)]) "attendance_logs" :=
  run_no_advance_on_failed_write envC4 [] (some [("attendance_logs", 2)])
    "attendance_logs" (by decide)

/-- C6: running the pipeline a second time over unchanged source tables
(after a healthy first run) changes neither the remote objects nor the
checkpoint file: every source's second fetch is empty, the serializer
yields the empty payload, and the log records `noRows` for every source
(no commit call). -/
theorem run_idempotent_no_new_rows (env : Env) (d0 : DriveState) (f0 : Option TimesMap)
    (hdb : env.dbConnect = true) (hg : env.gdriveOk = true)
    (hgood : ∀ t ∈ TABLES, (env.tableData t).isSome = true ∧ env.uploadOk t = true) :
    (secondRun env d0 f0).drive = (mainRun env d0 f0).drive
    ∧ (secondRun env d0 f0).fileAfter = (mainRun env d0 f0).fileAfter
    ∧ (secondRun env d0 f0).log = TABLES.map (fun t => (t, Outcome.noRows))
    ∧ ∀ t ∈ TABLES, ∀ tbl, env.tableData t = some tbl →
        fetchRows tbl (getTime (loadTimes (mainRun env d0 f0).fileAfter) t) = []
        ∧ generate_insert_components t (env.columns t)
            ((fetchRows tbl (getTime (loadTimes (mainRun env d0 f0).fileAfter) t)).map
              (·.vals)) = none := by
  obtain ⟨s1, hdone1, hbound⟩ := processLoop_all_ok env (loadTimes f0) TABLES
    ⟨loadTimes f0, d0, []⟩ (by decide) hgood (fun t _ => rfl)
  have hrun1 : mainRun env d0 f0 = ⟨some s1.updated, true, s1.drive, s1.log⟩ :=
    mainRun_of_done env d0 f0 s1 hdb hg hdone1
  have hempty : ∀ t ∈ TABLES, ∃ tbl, env.tableData t = some tbl
      ∧ fetchRows tbl (getTime s1.updated t) = [] := by
    intro t ht
    obtain ⟨hsome, _⟩ := hgood t ht
    obtain ⟨tbl, htd⟩ := Option.isSome_iff_exists.1 hsome
    exact ⟨tbl, htd, fetchRows_eq_nil tbl _ (fun r hr => hbound t ht tbl htd r hr)⟩
  have hloop2 : processLoop env (loadTimes (some s1.updated)) TABLES
      ⟨loadTimes (some s1.updated), s1.drive, []⟩
      = .done ⟨s1.updated, s1.drive, [] ++ TABLES.map (fun t => (t, Outcome.noRows))⟩ :=
    processLoop_all_noRows env s1.updated TABLES ⟨s1.updated, s1.drive, []⟩ hempty
  have hrun2 : mainRun env s1.drive (some s1.updated)
      = ⟨some s1.updated, true, s1.drive,
         [] ++ TABLES.map (fun t => (t, Outcome.noRows))⟩ :=
    mainRun_of_done env s1.drive (some s1.updated) _ hdb hg hloop2
  have hsec : secondRun env d0 f0 = mainRun env s1.drive (some s1.updated) := by
    unfold secondRun
    rw [hrun1]
  refine ⟨?_, ?_, ?_, ?_⟩
  · rw [hsec, hrun2, hrun1]
  · rw [hsec, hrun2, hrun1]
  · rw [hsec, hrun2]
    simp
  · intro t ht tbl htd
    obtain ⟨tbl2, htd2, hf2⟩ := hempty t ht
    rw [htd] at htd2
    injection htd2 with he
    subst he
    constructor
    · show fetchRows tbl (getTime (loadTimes (mainRun env d0 f0).fileAfter) t) = []
      rw [hrun1]
      exact hf2
    · show generate_insert_components t (env.columns t)
        ((fetchRows tbl (getTime (loadTimes (mainRun env d0 f0).fileAfter) t)).map
          (·.vals)) = none
      rw [hrun1]
      show generate_insert_components t (env.columns t)
        ((fetchRows tbl (getTime s1.updated t)).map (·.vals)) = none
      rw [hf2]
      rfl

/-- Witness for C6: the healthy one-row environment, run twice. -/
theorem run_idempotent_no_new_rows_witness :
    (secondRun envC6 [] none).fileAfter = (mainRun envC6 [] none).fileAfter :=
  (run_idempotent_no_new_rows envC6 [] none rfl rfl (by decide)).2.1

/-- C10: when a run saves, every checkpoint entry whose source has no
confirmed upload in the run — in particular every entry whose source name
is not in the configured table list — is preserved unchanged from the
loaded mapping: only configured, successfully exported sources are
updated. -/
theorem run_preserves_unexported (env : Env) (d0 : DriveState) (f0 : Option TimesMap)
    (saved : TimesMap)
    (hsave : (mainRun env d0 f0).saveCalled = true)
    (hfile : (mainRun env d0 f0).fileAfter = some saved) :
    (∀ k, k ∉ uploadedKeys (mainRun env d0 f0).log →
        lookupTime saved k = lookupTime (loadTimes f0) k)
    ∧ (∀ k, k ∉ TABLES → k ∉ uploadedKeys (mainRun env d0 f0).log) := by
  obtain ⟨hdb, hg, s', hp, hrun⟩ := mainRun_inv_save env d0 f0 hsave
  have hsaved : some s'.updated = some saved := by
    rw [hrun] at hfile
    exact hfile
  injection hsaved with hsaved
  subst hsaved
  have hstate : (processLoop env (loadTimes f0) TABLES ⟨loadTimes f0, d0, []⟩).state
      = s' := by
    rw [hp]
    rfl
  constructor
  · intro k hk
    have hk' : k ∉ uploadedKeys s'.log := by
      rw [hrun] at hk
      exact hk
    have hframe := processLoop_frame_no_upload env (loadTimes f0) TABLES
      ⟨loadTimes f0, d0, []⟩ k (by rw [hstate]; exact hk')
    rw [hstate] at hframe
    exact hframe
  · intro k hkT hk
    have hk' : k ∈ uploadedKeys s'.log := by
      rw [hrun] at hk
      exact hk
    obtain ⟨rows, nt, hmem⟩ := (mem_uploadedKeys _ _).1 hk'
    rcases processLoop_log_keys env (loadTimes f0) TABLES ⟨loadTimes f0, d0, []⟩
      (k, Outcome.uploaded rows nt) (by rw [hstate]; exact hmem) with h' | h'
    · exact absurd h' (List.not_mem_nil _)
    · exact hkT h'

/-- Witness for C10: the entry `legacy_table`, not a configured source,
keeps its value 42 through a saving run. -/
theorem run_preserves_unexported_witness :
    lookupTime [("attendance_logs", 5), ("legacy_table", 42)] "legacy_table"
      = lookupTime (loadTimes (some [("attendance_logs", 1), ("legacy_table", 42)]))
          "legacy_table" :=
  (run_preserves_unexported envC10 [] (some [("attendance_logs", 1), ("legacy_table", 42)])
    [("attendance_logs", 5), ("legacy_table", 42)] (by decide) (by decide)).1
    "legacy_table" (by decide)

end ZohoTrial
